import Mathlib

/-!
# Exchange-rates lambda (`aws/lambdas/exchange-rates/main.go`)

A shallow embedding of the lambda that fetches merchant exchange rates, re-keys them
against a base currency and uploads the JSON result to an object store.

Modelling conventions.

* A Go `map[string]V` is the list of its entries (keys pairwise distinct).  For the map a
  `range` loop runs over, the list is given in the order in which the loop visits the
  entries; Go leaves that order unspecified, so properties that have to hold for every run
  are stated for every arrangement of the entries.
* A Go `error` is identified with its message (the string `err.Error()` returns), and a
  `(*T, error)` result with `Except String T`: an error comes with a nil pointer.
* `strconv.ParseFloat`, the JSON codec, `os.Getenv`, the HTTP client and the S3 uploader
  are library or external behaviour: they are parameters of the definitions.
* External calls made by `Handler` are recorded in an explicit list.
-/

namespace ExchangeRates

/-! ## Go maps as entry lists -/

/-- The comma-ok index expression `v, ok := m[k]` on a map given by its entries. -/
def mapIndex {V : Type} : List (String × V) → String → Option V
  | [], _ => none
  | (k', v) :: rest, k => if k' = k then some v else mapIndex rest k

/-- The map assignment `m[k] = v`: replaces the entry for `k`, or adds one. -/
def mapAssign {V : Type} : List (String × V) → String → V → List (String × V)
  | [], k, v => [(k, v)]
  | (k', v') :: rest, k, v =>
    if k' = k then (k, v) :: rest else (k', v') :: mapAssign rest k v

/-- The keys of a map. -/
def mapKeys {V : Type} (m : List (String × V)) : List String := m.map Prod.fst

/-! ## Data model -/

/-- The struct `RatesResponse`; `F` is the type of `float64` values. -/
structure RatesResponse (F : Type) where
  Base : String
  Rates : List (String × F)
deriving DecidableEq, Repr

/-- The type of `MerchantRates.Merchant`: `map[string]map[string]string`. -/
abbrev MerchantMap := List (String × List (String × String))

/-! ## Transformer -/

/-- The error of line 56, `fmt.Errorf("failed to find %s rate for currency %s in merchant rates", ...)`. -/
def missingBaseRateError (baseCurrency currency : String) : String :=
  "failed to find " ++ baseCurrency ++ " rate for currency " ++ currency ++ " in merchant rates"

/-- The error of line 61, `fmt.Errorf("failed to convert rate to float64 for currency %s: %v", ...)`;
`err` is the text of the error `strconv.ParseFloat` returned. -/
def rateParseError (currency err : String) : String :=
  "failed to convert rate to float64 for currency " ++ currency ++ ": " ++ err

/-- The `for currency, rateMap := range merchantRates` loop of `transformToBaseCurrency`
(lines 53-65), run on the entries still to be visited with the current `usdRates`. -/
def transformLoop {F : Type} (ParseFloat : String → Except String F) (baseCurrency : String) :
    MerchantMap → List (String × F) → Except String (List (String × F))
  | [], usdRates => .ok usdRates
  | (currency, rateMap) :: rest, usdRates =>
    match mapIndex rateMap baseCurrency with
    | none => .error (missingBaseRateError baseCurrency currency)
    | some rateStr =>
      match ParseFloat rateStr with
      | .error err => .error (rateParseError currency err)
      | .ok rate => transformLoop ParseFloat baseCurrency rest (mapAssign usdRates currency rate)

/-- The function `transformToBaseCurrency` (lines 49-71).  `ParseFloat s` stands for
`strconv.ParseFloat(s, 64)`; `merchantRates` lists the entries in visiting order. -/
def transformToBaseCurrency {F : Type} (ParseFloat : String → Except String F)
    (baseCurrency : String) (merchantRates : MerchantMap) : Except String (RatesResponse F) :=
  match transformLoop ParseFloat baseCurrency merchantRates [] with
  | .error err => .error err
  | .ok usdRates => .ok { Base := baseCurrency, Rates := usdRates }

/-! ## Fetcher and handler -/

/-- The part of `*http.Response` the program reads. -/
structure HttpResponse where
  StatusCode : Int
  Body : String
deriving DecidableEq, Repr

/-- An external call made during an invocation.  An upload is recorded with the outcome the
object store reported: `stored = true` when `uploader.Upload` returned without error. -/
inductive Call where
  | httpGet (url : String)
  | upload (bucket key body : String) (stored : Bool)
deriving DecidableEq, Repr

/-- Everything outside the program that an invocation of `Handler` depends on. -/
structure World (F : Type) where
  /-- The function `os.Getenv`: the value of a variable, `""` when it is unset. -/
  Getenv : String → String
  /-- The call `client.Get(url)` with the 15 second timeout: a transport error or a response. -/
  httpGet : String → Except String HttpResponse
  /-- The call `json.NewDecoder(body).Decode(&ratesResponse)` followed by `.Merchant`; the
  entries of the decoded map are listed in the order the transform loop will visit them. -/
  jsonDecode : String → Except String MerchantMap
  /-- The call `strconv.ParseFloat(s, 64)`. -/
  ParseFloat : String → Except String F
  /-- The call `json.Marshal(data)`. -/
  jsonMarshal : RatesResponse F → Except String String
  /-- The call `session.NewSession` for a region. -/
  newSession : String → Except String Unit
  /-- The call `uploader.Upload` for a bucket, a key and a body. -/
  upload : String → String → String → Except String Unit

/-- The function `getExchangeRates` (lines 28-47): its result and the external calls it made. -/
def getExchangeRates {F : Type} (w : World F) (apiURL : String) :
    Except String MerchantMap × List Call :=
  match w.httpGet apiURL with
  | .error err =>
    (.error ("failed to get exchange rates from " ++ apiURL ++ ": " ++ err), [Call.httpGet apiURL])
  | .ok response =>
    if response.StatusCode ≠ 200 then
      (.error ("received non-200 response code: " ++ toString response.StatusCode),
        [Call.httpGet apiURL])
    else
      match w.jsonDecode response.Body with
      | .error err => (.error ("failed to decode response body: " ++ err), [Call.httpGet apiURL])
      | .ok merchant => (.ok merchant, [Call.httpGet apiURL])

/-- How an invocation of `Handler` ends: it returns `(string, error)`, with `err = none` for a
nil error, or `session.Must` panics. -/
inductive Outcome where
  | returned (s : String) (err : Option String)
  | panicked (err : String)
deriving DecidableEq, Repr

/-- An invocation: how it ended and the external calls it made, in order. -/
structure Run where
  outcome : Outcome
  calls : List Call
deriving DecidableEq, Repr

/-- The error of line 81. -/
def configError : String := "API_URL, BUCKET_NAME, or KEY_NAME environment variable is not set"

/-- The function `Handler` (lines 73-115). -/
def Handler {F : Type} (w : World F) : Run :=
  let apiUrl := w.Getenv "API_URL"
  let bucketName := w.Getenv "BUCKET_NAME"
  let keyName := w.Getenv "KEY_NAME"
  let region := w.Getenv "REGION"
  let baseCurrency := w.Getenv "BASE_CURRENCY"
  if apiUrl = "" ∨ bucketName = "" ∨ keyName = "" ∨ region = "" then
    ⟨.returned "" (some configError), []⟩
  else
    match getExchangeRates w apiUrl with
    | (.error err, calls) => ⟨.returned "" (some err), calls⟩
    | (.ok merchantRates, calls) =>
      match transformToBaseCurrency w.ParseFloat baseCurrency merchantRates with
      | .error err => ⟨.returned "" (some err), calls⟩
      | .ok data =>
        match w.jsonMarshal data with
        | .error err => ⟨.returned "" (some err), calls⟩
        | .ok dataBytes =>
          match w.newSession region with
          | .error err => ⟨.panicked err, calls⟩
          | .ok _ =>
            match w.upload bucketName keyName dataBytes with
            | .error err =>
              ⟨.returned "" (some err), calls ++ [Call.upload bucketName keyName dataBytes false]⟩
            | .ok _ =>
              ⟨.returned ("Successfully uploaded data to " ++ bucketName ++ "/" ++ keyName) none,
                calls ++ [Call.upload bucketName keyName dataBytes true]⟩

/-- The uploads attempted among some calls, as (bucket, key, body). -/
def uploadAttempts : List Call → List (String × String × String)
  | [] => []
  | Call.upload bucket key body _ :: rest => (bucket, key, body) :: uploadAttempts rest
  | Call.httpGet _ :: rest => uploadAttempts rest

/-- The object writes among some calls: the uploads the object store accepted. -/
def objectWrites : List Call → List (String × String × String)
  | [] => []
  | Call.upload bucket key body true :: rest => (bucket, key, body) :: objectWrites rest
  | _ :: rest => objectWrites rest

/-! ## Library behaviour used in concrete runs -/

/-- The values of `float64` as the program and the JSON encoder distinguish them: NaN, the two
infinities, and the finite numbers, whose representation `R` is left open. -/
inductive float64 (R : Type) where
  | NaN
  | Inf (negative : Bool)
  | num (x : R)
deriving DecidableEq, Repr

/-- The special values `strconv.ParseFloat` recognises, as documented for it: the string
"NaN", and the possibly signed strings "Inf" and "Infinity", matched ignoring case. -/
def special {R : Type} (s : String) : Option (float64 R) :=
  let t := s.data.map Char.toLower
  if t = "nan".data then some float64.NaN
  else if t = "inf".data ∨ t = "+inf".data ∨ t = "infinity".data ∨ t = "+infinity".data then
    some (float64.Inf false)
  else if t = "-inf".data ∨ t = "-infinity".data then some (float64.Inf true)
  else none

/-- The call `strconv.ParseFloat(s, 64)`: a special value, or else the conversion `atof`
of a numeric literal to a finite number (an error, also for a value out of range). -/
def strconvParseFloat {R : Type} (atof : String → Except String R) (s : String) :
    Except String (float64 R) :=
  match special s with
  | some v => .ok v
  | none =>
    match atof s with
    | .ok x => .ok (float64.num x)
    | .error err => .error err

/-- The text of the syntax error of `strconv.ParseFloat` for the input `s`.  The library
writes the input through `strconv.Quote`; the text here agrees with it for an input without
quotes, backslashes, control or non-printable characters, which `Quote` leaves as they are,
and is only used for such inputs. -/
def syntaxError (s : String) : String :=
  "strconv.ParseFloat: parsing \"" ++ s ++ "\": invalid syntax"

/-- Whether the characters form a plain decimal literal: an optional sign, then digits with
an optional point, at least one digit in all. -/
def isPlainDecimal (cs : List Char) : Bool :=
  let body := match cs with
    | '+' :: r => r
    | '-' :: r => r
    | _ => cs
  let intPart := body.takeWhile Char.isDigit
  match body.dropWhile Char.isDigit with
  | [] => !intPart.isEmpty
  | '.' :: frac => frac.all Char.isDigit && !(intPart.isEmpty && frac.isEmpty)
  | _ => false

/-- A stand-in for the numeric conversion of `strconv.ParseFloat`, for concrete runs only.
It covers plain decimal literals within the range of float64 and inputs that are no numeric
literal at all: the finite number is kept as its literal (it stands for the float64 nearest
to it), anything else is a syntax error.  It does not cover the other literals the library
accepts (exponents, hexadecimal floats, digit separators) nor its range error, and no
general result depends on it. -/
def plainDecimal (s : String) : Except String String :=
  if isPlainDecimal s.data then .ok s else .error (syntaxError s)

/-- Whether the JSON encoder supports a `float64`: it rejects NaN and the infinities. -/
def float64.supported {R : Type} : float64 R → Bool
  | float64.num _ => true
  | _ => false

/-- The text `strconv.FormatFloat(f, 'g', -1, 64)` for a value the encoder rejects. -/
def float64.unsupportedText {R : Type} : float64 R → String
  | float64.NaN => "NaN"
  | float64.Inf false => "+Inf"
  | float64.Inf true => "-Inf"
  | float64.num _ => ""

/-- Whether one key comes no later than another in the order the JSON encoder sorts map keys
by (`strings.Compare`, the lexicographic order of the encoded strings). -/
def keyLE : List Char → List Char → Bool
  | [], _ => true
  | _ :: _, [] => false
  | x :: xs, y :: ys =>
    if x.toNat < y.toNat then true
    else if y.toNat < x.toNat then false
    else keyLE xs ys

/-- The entries of a map in increasing key order. -/
def sortedEntries {V : Type} (m : List (String × V)) : List (String × V) :=
  m.insertionSort (fun a b => keyLE a.1.data b.1.data = true)

/-- The call `json.Marshal(data)` on a `*RatesResponse`.  The string field always encodes;
the map is encoded entry by entry in increasing key order, and the first value that is NaN
or infinite aborts with an `UnsupportedValueError`.  `encode` gives the JSON text of a
response whose values are all supported. -/
def jsonMarshal {R : Type} (encode : RatesResponse (float64 R) → String)
    (data : RatesResponse (float64 R)) : Except String String :=
  match (sortedEntries data.Rates).find? (fun kv => !kv.2.supported) with
  | some kv => .error ("json: unsupported value: " ++ kv.2.unsupportedText)
  | none => .ok (encode data)

/-! ## A concrete world -/

/-- An environment in which API_URL, BUCKET_NAME and KEY_NAME are set, with the given values
of REGION and BASE_CURRENCY (`""` for an unset variable); every other variable is unset. -/
def demoEnv (region baseCurrency name : String) : String :=
  if name = "API_URL" then "https://rates.example/merchant"
  else if name = "BUCKET_NAME" then "rates-bucket"
  else if name = "KEY_NAME" then "rates.json"
  else if name = "REGION" then region
  else if name = "BASE_CURRENCY" then baseCurrency
  else ""

/-- A stand-in for the JSON text `json.Marshal` writes, for concrete runs only.  It agrees
with the encoder for a base and keys that need no escaping and for finite rates whose
literal is already the shortest decimal text of the float (such as "1.1"); it does not
reformat other literals nor escape characters, and no general result depends on it. -/
def demoEncode (data : RatesResponse (float64 String)) : String :=
  "\x7b\"base\":\"" ++ data.Base ++ "\",\"rates\":\x7b"
    ++ ",".intercalate ((sortedEntries data.Rates).map
        (fun kv => "\"" ++ kv.1 ++ "\":" ++
          (match kv.2 with
           | float64.num x => x
           | _ => "")))
    ++ "\x7d\x7d"

/-- A world with the environment `env`, an endpoint that answers every GET with `response`,
whose body decodes to `merchant`, a session that is always created, and an object store that
answers every upload with `stored`. -/
def demoWorld (env : String → String) (response : Except String HttpResponse)
    (merchant : Except String MerchantMap) (stored : Except String Unit) :
    World (float64 String) where
  Getenv := env
  httpGet := fun _ => response
  jsonDecode := fun _ => merchant
  ParseFloat := strconvParseFloat plainDecimal
  jsonMarshal := jsonMarshal demoEncode
  newSession := fun _ => .ok ()
  upload := fun _ _ _ => stored

/-- The body of the scenario: the merchant rates EUR ↦ (USD ↦ "1.1"), GBP ↦ (USD ↦ "1.3"). -/
def demoBody : String :=
  "\x7b\"merchant\":\x7b\"EUR\":\x7b\"USD\":\"1.1\"\x7d,\"GBP\":\x7b\"USD\":\"1.3\"\x7d\x7d\x7d"

/-- The map `demoBody` decodes to, in one visiting order. -/
def demoMerchant : MerchantMap := [("GBP", [("USD", "1.3")]), ("EUR", [("USD", "1.1")])]

/-! ## Lemmas on maps -/

theorem mapIndex_eq_none_iff {V : Type} (m : List (String × V)) (k : String) :
    mapIndex m k = none ↔ k ∉ mapKeys m := by
  induction m with
  | nil => simp [mapIndex, mapKeys]
  | cons e rest ih =>
    obtain ⟨k', v⟩ := e
    by_cases hk : k' = k
    · simp [mapIndex, mapKeys, hk]
    · have hk' : ¬ k = k' := fun h => hk h.symm
      simpa [mapIndex, mapKeys, hk, hk'] using ih

theorem mapAssign_of_not_mem {V : Type} (m : List (String × V)) (k : String) (v : V)
    (h : k ∉ mapKeys m) : mapAssign m k v = m ++ [(k, v)] := by
  induction m with
  | nil => rfl
  | cons e rest ih =>
    obtain ⟨k', v'⟩ := e
    have hk : ¬ k' = k := fun hh => h (by simp [mapKeys, hh])
    have hr : k ∉ mapKeys rest := fun hh => h (by
      simp only [mapKeys, List.map_cons, List.mem_cons]
      exact Or.inr hh)
    simp [mapAssign, hk, ih hr]

theorem mapIndex_append_singleton {V : Type} (m : List (String × V)) (k : String) (v : V)
    (k' : String) :
    mapIndex (m ++ [(k, v)]) k' =
      match mapIndex m k' with
      | some x => some x
      | none => if k = k' then some v else none := by
  induction m with
  | nil => simp [mapIndex]
  | cons e rest ih =>
    obtain ⟨k₀, v₀⟩ := e
    by_cases hk : k₀ = k'
    · simp [mapIndex, hk]
    · simpa [mapIndex, hk] using ih

/-! ## Lemmas on the transformer loop -/

/-- The loop stops at the first visited currency without an entry for the base currency,
when the currencies visited before it all have a rate that parses. -/
theorem transformLoop_first_missing {F : Type} (ParseFloat : String → Except String F)
    (b : String) (pre post : MerchantMap) (c : String) (rm : List (String × String))
    (hpre : ∀ e ∈ pre, ∃ s v, mapIndex e.2 b = some s ∧ ParseFloat s = .ok v)
    (hc : mapIndex rm b = none) (acc : List (String × F)) :
    transformLoop ParseFloat b (pre ++ (c, rm) :: post) acc
      = .error (missingBaseRateError b c) := by
  induction pre generalizing acc with
  | nil => simp [transformLoop, hc]
  | cons e rest ih =>
    obtain ⟨c', rm'⟩ := e
    obtain ⟨s, v, hs, hv⟩ := hpre (c', rm') (List.mem_cons_self _ _)
    have hs' : mapIndex rm' b = some s := hs
    simp only [List.cons_append, transformLoop, hs', hv]
    exact ih (fun e he => hpre e (List.mem_cons_of_mem _ he)) _

/-- The loop stops at the first visited currency whose rate string is rejected, when the
currencies visited before it all have a rate that parses. -/
theorem transformLoop_first_rejected {F : Type} (ParseFloat : String → Except String F)
    (b : String) (pre post : MerchantMap) (c : String) (rm : List (String × String))
    (s err : String)
    (hpre : ∀ e ∈ pre, ∃ s v, mapIndex e.2 b = some s ∧ ParseFloat s = .ok v)
    (hs : mapIndex rm b = some s) (he : ParseFloat s = .error err) (acc : List (String × F)) :
    transformLoop ParseFloat b (pre ++ (c, rm) :: post) acc
      = .error (rateParseError c err) := by
  induction pre generalizing acc with
  | nil => simp [transformLoop, hs, he]
  | cons e rest ih =>
    obtain ⟨c', rm'⟩ := e
    obtain ⟨s', v, hs', hv⟩ := hpre (c', rm') (List.mem_cons_self _ _)
    have hs'' : mapIndex rm' b = some s' := hs'
    simp only [List.cons_append, transformLoop, hs'', hv]
    exact ih (fun e he => hpre e (List.mem_cons_of_mem _ he)) _

/-- The loop fails as soon as one currency has no rate that parses, wherever it stands. -/
theorem transformLoop_error_of_fault {F : Type} (ParseFloat : String → Except String F)
    (b : String) (m : MerchantMap) (acc : List (String × F))
    (h : ∃ e ∈ m, ¬ ∃ s v, mapIndex e.2 b = some s ∧ ParseFloat s = .ok v) :
    ∃ err, transformLoop ParseFloat b m acc = .error err := by
  induction m generalizing acc with
  | nil => simp at h
  | cons e rest ih =>
    obtain ⟨c, rm⟩ := e
    cases hs : mapIndex rm b with
    | none => exact ⟨missingBaseRateError b c, by simp [transformLoop, hs]⟩
    | some s =>
      cases hv : ParseFloat s with
      | error err => exact ⟨rateParseError c err, by simp [transformLoop, hs, hv]⟩
      | ok v =>
        simp only [transformLoop, hs, hv]
        apply ih
        obtain ⟨e, he, hbad⟩ := h
        rcases List.mem_cons.mp he with rfl | he'
        · exact absurd ⟨s, v, hs, hv⟩ hbad
        · exact ⟨e, he', hbad⟩

/-- When every currency has a rate that parses and the currencies are pairwise distinct and
not yet in the table, the loop ends with the table extended by one entry per currency. -/
theorem transformLoop_ok {F : Type} (ParseFloat : String → Except String F)
    (b : String) (m : MerchantMap) (acc : List (String × F))
    (hgood : ∀ e ∈ m, ∃ s v, mapIndex e.2 b = some s ∧ ParseFloat s = .ok v)
    (hnd : (mapKeys m).Nodup) (hacc : (mapKeys acc).Nodup)
    (hdisj : ∀ k ∈ mapKeys m, k ∉ mapKeys acc) :
    ∃ rates, transformLoop ParseFloat b m acc = .ok rates
      ∧ rates.length = acc.length + m.length
      ∧ (mapKeys rates).Nodup
      ∧ (∀ k, k ∈ mapKeys rates ↔ k ∈ mapKeys acc ∨ k ∈ mapKeys m)
      ∧ (∀ k, k ∈ mapKeys acc → mapIndex rates k = mapIndex acc k)
      ∧ (∀ c rm, (c, rm) ∈ m →
          ∃ s v, mapIndex rm b = some s ∧ ParseFloat s = .ok v ∧ mapIndex rates c = some v) := by
  induction m generalizing acc with
  | nil =>
    exact ⟨acc, rfl, by simp, hacc, by simp [mapKeys], fun _ _ => rfl, by simp⟩
  | cons e rest ih =>
    obtain ⟨c, rm⟩ := e
    obtain ⟨s, v, hs, hv⟩ := hgood (c, rm) (List.mem_cons_self _ _)
    have hs' : mapIndex rm b = some s := hs
    have hcacc : c ∉ mapKeys acc := hdisj c (by simp [mapKeys])
    have hnd' : c ∉ mapKeys rest ∧ (mapKeys rest).Nodup := by
      simpa [mapKeys] using hnd
    have hassign := mapAssign_of_not_mem acc c v hcacc
    have hacc' : (mapKeys (acc ++ [(c, v)])).Nodup := by
      simp only [mapKeys, List.map_append, List.map_cons, List.map_nil]
      refine List.Nodup.append hacc (List.nodup_singleton c) ?_
      intro k hk hk'
      rw [List.mem_singleton] at hk'
      exact hcacc (hk' ▸ hk)
    have hdisj' : ∀ k ∈ mapKeys rest, k ∉ mapKeys (acc ++ [(c, v)]) := by
      intro k hk hmem
      simp only [mapKeys, List.map_append, List.map_cons, List.map_nil, List.mem_append,
        List.mem_singleton] at hmem
      rcases hmem with hmem | hmem
      · exact hdisj k (by simp only [mapKeys, List.map_cons, List.mem_cons]; exact Or.inr hk) hmem
      · exact hnd'.1 (hmem ▸ hk)
    obtain ⟨rates, hrun, hlen, hrnd, hkeys, hkeep, hvals⟩ :=
      ih (acc ++ [(c, v)]) (fun e he => hgood e (List.mem_cons_of_mem _ he)) hnd'.2 hacc' hdisj'
    refine ⟨rates, ?_, ?_, hrnd, ?_, ?_, ?_⟩
    · simp only [transformLoop, hs', hv, hassign]
      exact hrun
    · simp only [hlen, List.length_append, List.length_cons, List.length_nil]
      omega
    · intro k
      rw [hkeys k]
      simp only [mapKeys, List.map_append, List.map_cons, List.map_nil, List.mem_append,
        List.mem_singleton, List.mem_cons]
      tauto
    · intro k hk
      have hmem : k ∈ mapKeys (acc ++ [(c, v)]) := by
        simp only [mapKeys, List.map_append, List.mem_append]
        exact Or.inl hk
      rw [hkeep k hmem, mapIndex_append_singleton]
      obtain ⟨x, hx⟩ := Option.ne_none_iff_exists'.mp
        (fun hn => (mapIndex_eq_none_iff acc k).mp hn hk)
      simp [hx]
    · intro c' rm' hmem
      rcases List.mem_cons.mp hmem with heq | hmem'
      · obtain ⟨rfl, rfl⟩ := Prod.mk.inj heq
        refine ⟨s, v, hs, hv, ?_⟩
        have hmemc : c' ∈ mapKeys (acc ++ [(c', v)]) := by
          simp [mapKeys]
        rw [hkeep c' hmemc, mapIndex_append_singleton,
          (mapIndex_eq_none_iff acc c').mpr hcacc]
        simp
      · exact hvals c' rm' hmem'

theorem missingBaseRateError_ne_rateParseError (b c c' err : String) :
    missingBaseRateError b c ≠ rateParseError c' err := by
  intro h
  have h2 := congrArg (fun s => s.data.take 11) h
  simp [missingBaseRateError, rateParseError, String.data_append] at h2

/-- A failing loop stopped at a currency of the map that has no rate that parses, and the
error is that currency's. -/
theorem transformLoop_error_inv {F : Type} (ParseFloat : String → Except String F)
    (b : String) (m : MerchantMap) (acc : List (String × F)) (err : String)
    (h : transformLoop ParseFloat b m acc = .error err) :
    ∃ c rm, (c, rm) ∈ m ∧
      ((mapIndex rm b = none ∧ err = missingBaseRateError b c) ∨
        (∃ s e, mapIndex rm b = some s ∧ ParseFloat s = .error e ∧ err = rateParseError c e)) := by
  induction m generalizing acc with
  | nil => simp [transformLoop] at h
  | cons x rest ih =>
    obtain ⟨c, rm⟩ := x
    cases hs : mapIndex rm b with
    | none =>
      simp only [transformLoop, hs, Except.error.injEq] at h
      exact ⟨c, rm, List.mem_cons_self _ _, Or.inl ⟨hs, h.symm⟩⟩
    | some s =>
      cases hv : ParseFloat s with
      | error e =>
        simp only [transformLoop, hs, hv, Except.error.injEq] at h
        exact ⟨c, rm, List.mem_cons_self _ _, Or.inr ⟨s, e, hs, hv, h.symm⟩⟩
      | ok v =>
        simp only [transformLoop, hs, hv] at h
        obtain ⟨c', rm', hmem, hcase⟩ := ih _ h
        exact ⟨c', rm', List.mem_cons_of_mem _ hmem, hcase⟩

/-- When every currency but one has a rate that parses and that one has a rejected rate
string, the loop fails with its rate-parse error in whatever order it runs. -/
theorem transformLoop_only_rejected {F : Type} (ParseFloat : String → Except String F)
    (b : String) (m : MerchantMap) (c : String) (rm : List (String × String)) (s err : String)
    (hc : (c, rm) ∈ m) (hs : mapIndex rm b = some s) (he : ParseFloat s = .error err)
    (hrest : ∀ x ∈ m, x ≠ (c, rm) → ∃ s v, mapIndex x.2 b = some s ∧ ParseFloat s = .ok v)
    (acc : List (String × F)) :
    transformLoop ParseFloat b m acc = .error (rateParseError c err) := by
  induction m generalizing acc with
  | nil => simp at hc
  | cons x rest ih =>
    by_cases hx : x = (c, rm)
    · subst hx
      simp [transformLoop, hs, he]
    · obtain ⟨c', rm'⟩ := x
      obtain ⟨s', v, hs', hv⟩ := hrest (c', rm') (List.mem_cons_self _ _) hx
      have hs'' : mapIndex rm' b = some s' := hs'
      simp only [transformLoop, hs'', hv]
      refine ih ?_ (fun y hy => hrest y (List.mem_cons_of_mem _ hy)) _
      rcases List.mem_cons.mp hc with h | h
      · exact absurd h.symm hx
      · exact h

/-- When every rate string present for the base currency parses, a loop over a map with a
currency that lacks the entry fails with the missing-base-rate error of such a currency. -/
theorem transformLoop_missing_of_parses {F : Type} (ParseFloat : String → Except String F)
    (b : String) (m : MerchantMap) (acc : List (String × F))
    (hmiss : ∃ e ∈ m, mapIndex e.2 b = none)
    (hparse : ∀ e ∈ m, ∀ s, mapIndex e.2 b = some s → ∃ v, ParseFloat s = .ok v) :
    ∃ c rm, (c, rm) ∈ m ∧ mapIndex rm b = none ∧
      transformLoop ParseFloat b m acc = .error (missingBaseRateError b c) := by
  induction m generalizing acc with
  | nil => simp at hmiss
  | cons x rest ih =>
    obtain ⟨c, rm⟩ := x
    cases hs : mapIndex rm b with
    | none => exact ⟨c, rm, List.mem_cons_self _ _, hs, by simp [transformLoop, hs]⟩
    | some s =>
      obtain ⟨v, hv⟩ := hparse (c, rm) (List.mem_cons_self _ _) s hs
      have hmiss' : ∃ e ∈ rest, mapIndex e.2 b = none := by
        obtain ⟨e, he, hnone⟩ := hmiss
        rcases List.mem_cons.mp he with rfl | he'
        · simp [hs] at hnone
        · exact ⟨e, he', hnone⟩
      obtain ⟨c', rm', hmem, hnone, hrun⟩ :=
        ih (mapAssign acc c v) hmiss' (fun e he => hparse e (List.mem_cons_of_mem _ he))
      exact ⟨c', rm', List.mem_cons_of_mem _ hmem, hnone, by
        simp only [transformLoop, hs, hv]; exact hrun⟩

theorem transformToBaseCurrency_eq_error {F : Type} (ParseFloat : String → Except String F)
    (b : String) (m : MerchantMap) (err : String) :
    transformToBaseCurrency ParseFloat b m = .error err
      ↔ transformLoop ParseFloat b m [] = .error err := by
  unfold transformToBaseCurrency
  cases transformLoop ParseFloat b m [] <;> simp

theorem transformToBaseCurrency_eq_ok {F : Type} (ParseFloat : String → Except String F)
    (b : String) (m : MerchantMap) (r : RatesResponse F) :
    transformToBaseCurrency ParseFloat b m = .ok r
      ↔ transformLoop ParseFloat b m [] = .ok r.Rates ∧ r.Base = b := by
  unfold transformToBaseCurrency
  obtain ⟨base, rates⟩ := r
  cases transformLoop ParseFloat b m [] <;> simp
  constructor
  · rintro ⟨h1, h2⟩
    exact ⟨h2, h1.symm⟩
  · rintro ⟨h1, h2⟩
    exact ⟨h2.symm, h1⟩

/-- The loop fails exactly when some currency has no rate that parses. -/
theorem transformLoop_fails_iff {F : Type} (ParseFloat : String → Except String F)
    (b : String) (m : MerchantMap) (acc : List (String × F)) :
    (∃ err, transformLoop ParseFloat b m acc = .error err)
      ↔ ∃ e ∈ m, ¬ ∃ s v, mapIndex e.2 b = some s ∧ ParseFloat s = .ok v := by
  constructor
  · rintro ⟨err, herr⟩
    obtain ⟨c, rm, hmem, hcase⟩ := transformLoop_error_inv ParseFloat b m acc err herr
    refine ⟨(c, rm), hmem, ?_⟩
    rintro ⟨s, v, hs, hv⟩
    rcases hcase with ⟨hnone, _⟩ | ⟨s', e, hs', he, _⟩
    · simp [hnone] at hs
    · have hss : s = s' := by
        have h := hs.symm.trans hs'
        simpa using h
      subst hss
      simp [hv] at he
  · exact transformLoop_error_of_fault ParseFloat b m acc

/-! ## The transformer: results -/

/-- The response of a transform over a map whose currencies all have a rate that parses. -/
theorem transformToBaseCurrency_ok_spec {F : Type} (ParseFloat : String → Except String F)
    (b : String) (m : MerchantMap) (hnd : (mapKeys m).Nodup)
    (h : ∀ c rm, (c, rm) ∈ m → ∃ s v, mapIndex rm b = some s ∧ ParseFloat s = .ok v) :
    ∃ r, transformToBaseCurrency ParseFloat b m = .ok r
      ∧ r.Base = b
      ∧ (mapKeys r.Rates).Nodup
      ∧ (∀ c, c ∈ mapKeys r.Rates ↔ c ∈ mapKeys m)
      ∧ r.Rates.length = m.length
      ∧ (∀ c rm, (c, rm) ∈ m →
          ∃ s v, mapIndex rm b = some s ∧ ParseFloat s = .ok v ∧ mapIndex r.Rates c = some v) := by
  obtain ⟨rates, hrun, hlen, hrnd, hkeys, _, hvals⟩ :=
    transformLoop_ok ParseFloat b m [] (fun e he => h e.1 e.2 he) hnd (by simp [mapKeys])
      (by simp [mapKeys])
  refine ⟨⟨b, rates⟩, ?_, rfl, hrnd, ?_, ?_, hvals⟩
  · exact (transformToBaseCurrency_eq_ok ParseFloat b m ⟨b, rates⟩).mpr ⟨hrun, rfl⟩
  · intro c
    rw [hkeys c]
    simp [mapKeys]
  · simpa using hlen

/-- C1: when the currencies of `m` are pairwise distinct (it is a map) and every currency has
an entry for the base currency `b` whose string parses, `transformToBaseCurrency b m`
succeeds, in whatever order the currencies are visited; the response has `Base = b`, its
`Rates` has exactly the currencies of `m` as keys, as many entries as `m` (none for an empty
`m`), and maps each currency to the float parsed from its rate string for `b`. -/
theorem transformToBaseCurrency_succeeds {F : Type} (ParseFloat : String → Except String F)
    (b : String) (m : MerchantMap) (hnd : (mapKeys m).Nodup)
    (h : ∀ c rm, (c, rm) ∈ m → ∃ s v, mapIndex rm b = some s ∧ ParseFloat s = .ok v) :
    ∃ r, transformToBaseCurrency ParseFloat b m = .ok r
      ∧ r.Base = b
      ∧ (mapKeys r.Rates).Nodup
      ∧ (∀ c, c ∈ mapKeys r.Rates ↔ c ∈ mapKeys m)
      ∧ r.Rates.length = m.length
      ∧ (∀ c rm, (c, rm) ∈ m →
          ∃ s v, mapIndex rm b = some s ∧ ParseFloat s = .ok v ∧ mapIndex r.Rates c = some v) := by
  obtain ⟨rates, hrun, hlen, hrnd, hkeys, _, hvals⟩ :=
    transformLoop_ok ParseFloat b m [] (fun e he => h e.1 e.2 he) hnd (by simp [mapKeys])
      (by simp [mapKeys])
  refine ⟨⟨b, rates⟩, ?_, rfl, hrnd, ?_, ?_, hvals⟩
  · exact (transformToBaseCurrency_eq_ok ParseFloat b m ⟨b, rates⟩).mpr ⟨hrun, rfl⟩
  · intro c
    rw [hkeys c]
    simp [mapKeys]
  · simpa using hlen

/-- Witness for C1: base "USD" and the map EUR ↦ (USD ↦ "1.1"), GBP ↦ (USD ↦ "1.3") give
base "USD" and the rates EUR ↦ 1.1, GBP ↦ 1.3. -/
theorem transformToBaseCurrency_succeeds_witness :
    transformToBaseCurrency (strconvParseFloat plainDecimal) "USD"
        [("EUR", [("USD", "1.1")]), ("GBP", [("USD", "1.3")])]
      = .ok ⟨"USD", [("EUR", float64.num "1.1"), ("GBP", float64.num "1.3")]⟩
    ∧ (mapKeys ([("EUR", [("USD", "1.1")]), ("GBP", [("USD", "1.3")])] : MerchantMap)).Nodup
    ∧ ∃ r, transformToBaseCurrency (strconvParseFloat plainDecimal) "USD"
        [("EUR", [("USD", "1.1")]), ("GBP", [("USD", "1.3")])] = .ok r
      ∧ r.Base = "USD"
      ∧ (mapKeys r.Rates).Nodup
      ∧ (∀ c, c ∈ mapKeys r.Rates
          ↔ c ∈ mapKeys ([("EUR", [("USD", "1.1")]), ("GBP", [("USD", "1.3")])] : MerchantMap))
      ∧ r.Rates.length = 2
      ∧ (∀ c rm, (c, rm) ∈ ([("EUR", [("USD", "1.1")]), ("GBP", [("USD", "1.3")])] : MerchantMap) →
          ∃ s v, mapIndex rm "USD" = some s ∧ strconvParseFloat plainDecimal s = .ok v
            ∧ mapIndex r.Rates c = some v) :=
  ⟨rfl, by decide,
    transformToBaseCurrency_succeeds (strconvParseFloat plainDecimal) "USD"
      [("EUR", [("USD", "1.1")]), ("GBP", [("USD", "1.3")])] (by decide) (by
        intro c rm hmem
        simp only [List.mem_cons, Prod.mk.injEq, List.mem_nil_iff, or_false] at hmem
        rcases hmem with ⟨rfl, rfl⟩ | ⟨rfl, rfl⟩
        · exact ⟨"1.1", float64.num "1.1", rfl, rfl⟩
        · exact ⟨"1.3", float64.num "1.3", rfl, rfl⟩)⟩

/-- C2: when at least one currency of `m` has no entry for the base currency `b`,
`transformToBaseCurrency b m` returns an error and no response, whatever the other currencies
contain and in whatever order the currencies are visited. -/
theorem transformToBaseCurrency_fails_of_missing {F : Type}
    (ParseFloat : String → Except String F) (b : String) (m : MerchantMap)
    (h : ∃ c rm, (c, rm) ∈ m ∧ mapIndex rm b = none) :
    (∃ err, transformToBaseCurrency ParseFloat b m = .error err)
      ∧ ∀ r, transformToBaseCurrency ParseFloat b m ≠ .ok r := by
  obtain ⟨c, rm, hmem, hnone⟩ := h
  obtain ⟨err, herr⟩ := transformLoop_error_of_fault ParseFloat b m []
    ⟨(c, rm), hmem, by
      rintro ⟨s, v, hs, _⟩
      simp [hnone] at hs⟩
  have hfail := (transformToBaseCurrency_eq_error ParseFloat b m err).mpr herr
  exact ⟨⟨err, hfail⟩, fun r hr => by simp [hfail] at hr⟩

/-- Witness for C2: base "USD" and the map EUR ↦ (GBP ↦ "0.9") fail, with the
missing-base-rate error for EUR. -/
theorem transformToBaseCurrency_fails_of_missing_witness :
    transformToBaseCurrency (strconvParseFloat plainDecimal) "USD" [("EUR", [("GBP", "0.9")])]
      = .error "failed to find USD rate for currency EUR in merchant rates"
    ∧ (∃ err, transformToBaseCurrency (strconvParseFloat plainDecimal) "USD"
          [("EUR", [("GBP", "0.9")])] = .error err)
    ∧ ∀ r, transformToBaseCurrency (strconvParseFloat plainDecimal) "USD"
          [("EUR", [("GBP", "0.9")])] ≠ .ok r :=
  ⟨rfl, transformToBaseCurrency_fails_of_missing (strconvParseFloat plainDecimal) "USD"
    [("EUR", [("GBP", "0.9")])] ⟨"EUR", [("GBP", "0.9")], by simp, rfl⟩⟩

/-- C3, as stated, fails: with base "USD", the map AUD ↦ (GBP ↦ "0.9"), EUR ↦ (USD ↦ "abc")
contains EUR with the malformed rate "abc", yet a run that visits AUD first ends with the
missing-base-rate error for AUD, not with a rate-parse error naming EUR. -/
theorem rateParse_error_not_always :
    mapIndex [("USD", "abc")] "USD" = some "abc"
    ∧ strconvParseFloat plainDecimal "abc"
        = .error "strconv.ParseFloat: parsing \"abc\": invalid syntax"
    ∧ transformToBaseCurrency (strconvParseFloat plainDecimal) "USD"
        [("AUD", [("GBP", "0.9")]), ("EUR", [("USD", "abc")])]
      = .error "failed to find USD rate for currency AUD in merchant rates"
    ∧ ¬ ∃ err, transformToBaseCurrency (strconvParseFloat plainDecimal) "USD"
        [("AUD", [("GBP", "0.9")]), ("EUR", [("USD", "abc")])]
      = .error (rateParseError "EUR" err) := by
  refine ⟨rfl, rfl, rfl, ?_⟩
  rintro ⟨err, herr⟩
  have h : transformToBaseCurrency (strconvParseFloat plainDecimal) "USD"
      [("AUD", [("GBP", "0.9")]), ("EUR", [("USD", "abc")])]
      = .error (missingBaseRateError "USD" "AUD") := rfl
  rw [h] at herr
  exact missingBaseRateError_ne_rateParseError _ _ _ _ (Except.error.inj herr)

/-- C3, amended: when `m` contains a currency `c` whose rate string for the base currency is
rejected by the float parser with error text `err`, `transformToBaseCurrency b m` returns an
error and no response.  The error is the rate-parse error naming `c` and carrying `err` when
`c` is the first visited currency without a rate that parses, in particular, in whatever
order, when it is the only such currency. -/
theorem transformToBaseCurrency_rateParse {F : Type} (ParseFloat : String → Except String F)
    (b : String) (m : MerchantMap) (c : String) (rm : List (String × String)) (s err : String)
    (hc : (c, rm) ∈ m) (hs : mapIndex rm b = some s) (he : ParseFloat s = .error err) :
    (∃ e, transformToBaseCurrency ParseFloat b m = .error e)
      ∧ (∀ r, transformToBaseCurrency ParseFloat b m ≠ .ok r)
      ∧ (∀ pre post, m = pre ++ (c, rm) :: post →
          (∀ x ∈ pre, ∃ s v, mapIndex x.2 b = some s ∧ ParseFloat s = .ok v) →
          transformToBaseCurrency ParseFloat b m = .error (rateParseError c err))
      ∧ ((∀ x ∈ m, x ≠ (c, rm) → ∃ s v, mapIndex x.2 b = some s ∧ ParseFloat s = .ok v) →
          transformToBaseCurrency ParseFloat b m = .error (rateParseError c err)) := by
  obtain ⟨e, herr⟩ := transformLoop_error_of_fault ParseFloat b m []
    ⟨(c, rm), hc, by
      rintro ⟨s', v, hs', hv⟩
      have hss : s' = s := by
        have h := hs'.symm.trans hs
        simpa using h
      subst hss
      simp [hv] at he⟩
  have hfail := (transformToBaseCurrency_eq_error ParseFloat b m e).mpr herr
  refine ⟨⟨e, hfail⟩, fun r hr => by simp [hfail] at hr, ?_, ?_⟩
  · intro pre post hm hpre
    rw [transformToBaseCurrency_eq_error, hm]
    exact transformLoop_first_rejected ParseFloat b pre post c rm s err hpre hs he []
  · intro hrest
    rw [transformToBaseCurrency_eq_error]
    exact transformLoop_only_rejected ParseFloat b m c rm s err hc hs he hrest []

/-- Witness for C3, amended: base "USD" and the map GBP ↦ (USD ↦ "1.3"), EUR ↦ (USD ↦ "abc"). -/
theorem transformToBaseCurrency_rateParse_witness :
    (("EUR", [("USD", "abc")]) ∈
        ([("GBP", [("USD", "1.3")]), ("EUR", [("USD", "abc")])] : MerchantMap))
    ∧ mapIndex [("USD", "abc")] "USD" = some "abc"
    ∧ strconvParseFloat plainDecimal "abc"
        = .error "strconv.ParseFloat: parsing \"abc\": invalid syntax"
    ∧ transformToBaseCurrency (strconvParseFloat plainDecimal) "USD"
        [("GBP", [("USD", "1.3")]), ("EUR", [("USD", "abc")])]
      = .error ("failed to convert rate to float64 for currency EUR: "
          ++ "strconv.ParseFloat: parsing \"abc\": invalid syntax") :=
  ⟨by simp, rfl, rfl, (transformToBaseCurrency_rateParse (strconvParseFloat plainDecimal) "USD"
    [("GBP", [("USD", "1.3")]), ("EUR", [("USD", "abc")])] "EUR" [("USD", "abc")] "abc"
    "strconv.ParseFloat: parsing \"abc\": invalid syntax" (by simp) rfl rfl).2.2.1
    [("GBP", [("USD", "1.3")])] [] rfl (by
      intro x hx
      rw [List.mem_singleton] at hx
      subst hx
      exact ⟨"1.3", float64.num "1.3", rfl, rfl⟩)⟩

/-- C7, as stated, fails: with base "USD", the map AUD ↦ (USD ↦ "abc"), EUR ↦ (GBP ↦ "0.9")
has a currency, EUR, without an entry for the base currency, yet a run that visits AUD first
ends with the rate-parse error for AUD, not with a missing-base-rate error. -/
theorem missingBaseRate_error_not_always :
    mapIndex [("GBP", "0.9")] "USD" = none
    ∧ transformToBaseCurrency (strconvParseFloat plainDecimal) "USD"
        [("AUD", [("USD", "abc")]), ("EUR", [("GBP", "0.9")])]
      = .error ("failed to convert rate to float64 for currency AUD: "
          ++ "strconv.ParseFloat: parsing \"abc\": invalid syntax")
    ∧ ¬ ∃ c, transformToBaseCurrency (strconvParseFloat plainDecimal) "USD"
        [("AUD", [("USD", "abc")]), ("EUR", [("GBP", "0.9")])]
      = .error (missingBaseRateError "USD" c) := by
  refine ⟨rfl, rfl, ?_⟩
  rintro ⟨c, herr⟩
  have h : transformToBaseCurrency (strconvParseFloat plainDecimal) "USD"
      [("AUD", [("USD", "abc")]), ("EUR", [("GBP", "0.9")])]
      = .error (rateParseError "AUD" (syntaxError "abc")) := rfl
  rw [h] at herr
  exact missingBaseRateError_ne_rateParseError _ _ _ _ (Except.error.inj herr).symm

/-- C7, amended: when some currency of `m` has no entry for the base currency `b`,
`transformToBaseCurrency b m` returns an error and no response.  The error is the
missing-base-rate error naming `b` and a currency `c` that lacks the entry when `c` is the
first visited currency without a rate that parses; in particular, in whatever order the
currencies are visited, when every rate string present for `b` in `m` parses. -/
theorem transformToBaseCurrency_missingBaseRate {F : Type}
    (ParseFloat : String → Except String F) (b : String) (m : MerchantMap)
    (h : ∃ c rm, (c, rm) ∈ m ∧ mapIndex rm b = none) :
    (∃ err, transformToBaseCurrency ParseFloat b m = .error err)
      ∧ (∀ pre c rm post, m = pre ++ (c, rm) :: post → mapIndex rm b = none →
          (∀ x ∈ pre, ∃ s v, mapIndex x.2 b = some s ∧ ParseFloat s = .ok v) →
          transformToBaseCurrency ParseFloat b m = .error (missingBaseRateError b c))
      ∧ ((∀ x ∈ m, ∀ s, mapIndex x.2 b = some s → ∃ v, ParseFloat s = .ok v) →
          ∃ c rm, (c, rm) ∈ m ∧ mapIndex rm b = none ∧
            transformToBaseCurrency ParseFloat b m = .error (missingBaseRateError b c)) := by
  have hfail : ∃ err, transformToBaseCurrency ParseFloat b m = .error err := by
    obtain ⟨c, rm, hmem, hnone⟩ := h
    obtain ⟨err, herr⟩ := transformLoop_error_of_fault ParseFloat b m []
      ⟨(c, rm), hmem, by
        rintro ⟨s, v, hs, _⟩
        simp [hnone] at hs⟩
    exact ⟨err, (transformToBaseCurrency_eq_error ParseFloat b m err).mpr herr⟩
  refine ⟨hfail, ?_, ?_⟩
  · intro pre c rm post hm hnone hpre
    rw [transformToBaseCurrency_eq_error, hm]
    exact transformLoop_first_missing ParseFloat b pre post c rm hpre hnone []
  · intro hparse
    obtain ⟨c, rm, hmem, hnone⟩ := h
    obtain ⟨c', rm', hmem', hnone', hrun⟩ :=
      transformLoop_missing_of_parses ParseFloat b m [] ⟨(c, rm), hmem, hnone⟩ hparse
    exact ⟨c', rm', hmem', hnone',
      (transformToBaseCurrency_eq_error ParseFloat b m _).mpr hrun⟩

/-- Witness for C7, amended: base "USD" and the map GBP ↦ (USD ↦ "1.3"), EUR ↦ (GBP ↦ "0.9"). -/
theorem transformToBaseCurrency_missingBaseRate_witness :
    (("EUR", [("GBP", "0.9")]) ∈
        ([("GBP", [("USD", "1.3")]), ("EUR", [("GBP", "0.9")])] : MerchantMap))
    ∧ mapIndex [("GBP", "0.9")] "USD" = none
    ∧ transformToBaseCurrency (strconvParseFloat plainDecimal) "USD"
        [("GBP", [("USD", "1.3")]), ("EUR", [("GBP", "0.9")])]
      = .error "failed to find USD rate for currency EUR in merchant rates" :=
  ⟨by simp, rfl, (transformToBaseCurrency_missingBaseRate (strconvParseFloat plainDecimal) "USD"
    [("GBP", [("USD", "1.3")]), ("EUR", [("GBP", "0.9")])]
    ⟨"EUR", [("GBP", "0.9")], by simp, rfl⟩).2.1
    [("GBP", [("USD", "1.3")])] "EUR" [("GBP", "0.9")] [] rfl rfl (by
      intro x hx
      rw [List.mem_singleton] at hx
      subst hx
      exact ⟨"1.3", float64.num "1.3", rfl, rfl⟩)⟩

/-- C10, as stated, fails: the two visiting orders of the map AUD ↦ (GBP ↦ "0.9"),
EUR ↦ (GBP ↦ "0.9") give, with base "USD", errors naming different currencies. -/
theorem transformToBaseCurrency_order_dependent :
    List.Perm ([("AUD", [("GBP", "0.9")]), ("EUR", [("GBP", "0.9")])] : MerchantMap)
      [("EUR", [("GBP", "0.9")]), ("AUD", [("GBP", "0.9")])]
    ∧ transformToBaseCurrency (strconvParseFloat plainDecimal) "USD"
        [("AUD", [("GBP", "0.9")]), ("EUR", [("GBP", "0.9")])]
      = .error "failed to find USD rate for currency AUD in merchant rates"
    ∧ transformToBaseCurrency (strconvParseFloat plainDecimal) "USD"
        [("EUR", [("GBP", "0.9")]), ("AUD", [("GBP", "0.9")])]
      = .error "failed to find USD rate for currency EUR in merchant rates"
    ∧ transformToBaseCurrency (strconvParseFloat plainDecimal) "USD"
        [("AUD", [("GBP", "0.9")]), ("EUR", [("GBP", "0.9")])]
      ≠ transformToBaseCurrency (strconvParseFloat plainDecimal) "USD"
        [("EUR", [("GBP", "0.9")]), ("AUD", [("GBP", "0.9")])] := by
  refine ⟨List.Perm.swap _ _ _, rfl, rfl, ?_⟩
  intro h
  have h1 : transformToBaseCurrency (strconvParseFloat plainDecimal) "USD"
      [("AUD", [("GBP", "0.9")]), ("EUR", [("GBP", "0.9")])]
      = .error "failed to find USD rate for currency AUD in merchant rates" := rfl
  have h2 : transformToBaseCurrency (strconvParseFloat plainDecimal) "USD"
      [("EUR", [("GBP", "0.9")]), ("AUD", [("GBP", "0.9")])]
      = .error "failed to find USD rate for currency EUR in merchant rates" := rfl
  rw [h1, h2] at h
  exact absurd (Except.error.inj h) (by decide)

/-- C10, amended: `transformToBaseCurrency` is a function of the base currency, the map and
the order in which the loop visits the currencies.  For two visiting orders `m₁`, `m₂` of one
map: one run fails exactly when the other does; when one succeeds the other succeeds with the
same response (same base, same number of rates, same rate for every currency); and when at
most one currency of the map has no rate that parses, two failing runs return the same
error.  With several such currencies the error is that of the first one visited. -/
theorem transformToBaseCurrency_order {F : Type} (ParseFloat : String → Except String F)
    (b : String) (m₁ m₂ : MerchantMap) (hperm : m₁.Perm m₂) (hnd : (mapKeys m₁).Nodup) :
    ((∃ err, transformToBaseCurrency ParseFloat b m₁ = .error err)
        ↔ (∃ err, transformToBaseCurrency ParseFloat b m₂ = .error err))
      ∧ (∀ r₁, transformToBaseCurrency ParseFloat b m₁ = .ok r₁ →
          ∃ r₂, transformToBaseCurrency ParseFloat b m₂ = .ok r₂ ∧ r₂.Base = r₁.Base
            ∧ r₂.Rates.length = r₁.Rates.length
            ∧ ∀ c, mapIndex r₂.Rates c = mapIndex r₁.Rates c)
      ∧ ((∀ x ∈ m₁, ∀ y ∈ m₁,
            (¬ ∃ s v, mapIndex x.2 b = some s ∧ ParseFloat s = .ok v) →
            (¬ ∃ s v, mapIndex y.2 b = some s ∧ ParseFloat s = .ok v) → x = y) →
          ∀ err₁ err₂, transformToBaseCurrency ParseFloat b m₁ = .error err₁ →
            transformToBaseCurrency ParseFloat b m₂ = .error err₂ → err₁ = err₂) := by
  have hfail : ∀ m : MerchantMap, (∃ err, transformToBaseCurrency ParseFloat b m = .error err)
      ↔ ∃ e ∈ m, ¬ ∃ s v, mapIndex e.2 b = some s ∧ ParseFloat s = .ok v := by
    intro m
    rw [← transformLoop_fails_iff ParseFloat b m []]
    constructor
    · rintro ⟨err, h⟩
      exact ⟨err, (transformToBaseCurrency_eq_error ParseFloat b m err).mp h⟩
    · rintro ⟨err, h⟩
      exact ⟨err, (transformToBaseCurrency_eq_error ParseFloat b m err).mpr h⟩
  have hnd₂ : (mapKeys m₂).Nodup := (hperm.map Prod.fst).nodup_iff.mp hnd
  refine ⟨?_, ?_, ?_⟩
  · rw [hfail m₁, hfail m₂]
    constructor
    · rintro ⟨e, he, hbad⟩
      exact ⟨e, hperm.mem_iff.mp he, hbad⟩
    · rintro ⟨e, he, hbad⟩
      exact ⟨e, hperm.mem_iff.mpr he, hbad⟩
  · intro r₁ hr₁
    have hgood : ∀ c rm, (c, rm) ∈ m₁ →
        ∃ s v, mapIndex rm b = some s ∧ ParseFloat s = .ok v := by
      intro c rm hmem
      by_contra hbad
      obtain ⟨err, herr⟩ := (hfail m₁).mpr ⟨(c, rm), hmem, hbad⟩
      simp [hr₁] at herr
    obtain ⟨r₁', hr₁', hb₁, _, hk₁, hl₁, hv₁⟩ :=
      transformToBaseCurrency_ok_spec ParseFloat b m₁ hnd hgood
    obtain ⟨r₂, hr₂, hb₂, _, hk₂, hl₂, hv₂⟩ :=
      transformToBaseCurrency_ok_spec ParseFloat b m₂ hnd₂
        (fun c rm hmem => hgood c rm (hperm.mem_iff.mpr hmem))
    have heq : r₁' = r₁ := by
      rw [hr₁] at hr₁'
      exact (Except.ok.inj hr₁').symm
    subst heq
    refine ⟨r₂, hr₂, by rw [hb₂, hb₁], by rw [hl₂, hl₁, hperm.length_eq], ?_⟩
    intro c
    by_cases hc : c ∈ mapKeys m₁
    · obtain ⟨⟨c', rm⟩, hmem, hfst⟩ := List.mem_map.mp hc
      have hcc : c' = c := hfst
      subst hcc
      obtain ⟨s₁, v₁, hs₁, hp₁, hi₁⟩ := hv₁ c' rm hmem
      obtain ⟨s₂, v₂, hs₂, hp₂, hi₂⟩ := hv₂ c' rm (hperm.mem_iff.mp hmem)
      have hss : s₁ = s₂ := by
        have h := hs₁.symm.trans hs₂
        simpa using h
      subst hss
      have hvv : v₁ = v₂ := by
        have h := hp₁.symm.trans hp₂
        exact Except.ok.inj h
      rw [hi₁, hi₂, hvv]
    · have h₁ : c ∉ mapKeys r₁'.Rates := fun h => hc ((hk₁ c).mp h)
      have h₂ : c ∉ mapKeys r₂.Rates := fun h =>
        hc ((List.Perm.mem_iff (hperm.map Prod.fst)).mpr ((hk₂ c).mp h))
      rw [(mapIndex_eq_none_iff _ c).mpr h₁, (mapIndex_eq_none_iff _ c).mpr h₂]
  · intro huniq err₁ err₂ h₁ h₂
    rw [transformToBaseCurrency_eq_error] at h₁ h₂
    obtain ⟨c₁, rm₁, hmem₁, hcase₁⟩ := transformLoop_error_inv ParseFloat b m₁ [] err₁ h₁
    obtain ⟨c₂, rm₂, hmem₂, hcase₂⟩ := transformLoop_error_inv ParseFloat b m₂ [] err₂ h₂
    have hbad : ∀ (c : String) (rm : List (String × String)) (err : String),
        ((mapIndex rm b = none ∧ err = missingBaseRateError b c) ∨
          (∃ s e, mapIndex rm b = some s ∧ ParseFloat s = .error e ∧ err = rateParseError c e)) →
        ¬ ∃ s v, mapIndex (c, rm).2 b = some s ∧ ParseFloat s = .ok v := by
      rintro c rm err hcase ⟨s, v, hs, hv⟩
      rcases hcase with ⟨hnone, _⟩ | ⟨s', e, hs', he, _⟩
      · simp [hnone] at hs
      · have hss : s = s' := by
          have h := hs.symm.trans hs'
          simpa using h
        subst hss
        simp [hv] at he
    have hxy := huniq (c₁, rm₁) hmem₁ (c₂, rm₂) (hperm.mem_iff.mpr hmem₂)
      (hbad c₁ rm₁ err₁ hcase₁) (hbad c₂ rm₂ err₂ hcase₂)
    obtain ⟨rfl, rfl⟩ := Prod.mk.inj hxy
    rcases hcase₁ with ⟨hn₁, he₁⟩ | ⟨s₁, e₁, hs₁, hp₁, he₁⟩
    · rcases hcase₂ with ⟨_, he₂⟩ | ⟨s₂, e₂, hs₂, _, _⟩
      · rw [he₁, he₂]
      · simp [hn₁] at hs₂
    · rcases hcase₂ with ⟨hn₂, _⟩ | ⟨s₂, e₂, hs₂, hp₂, he₂⟩
      · simp [hn₂] at hs₁
      · have hss : s₁ = s₂ := by
          have h := hs₁.symm.trans hs₂
          simpa using h
        subst hss
        have hee : e₁ = e₂ := by
          have h := hp₁.symm.trans hp₂
          exact Except.error.inj h
        rw [he₁, he₂, hee]

/-- Witness for C10, amended: the two visiting orders of EUR ↦ (USD ↦ "1.1"),
GBP ↦ (USD ↦ "1.3"). -/
theorem transformToBaseCurrency_order_witness :
    List.Perm ([("EUR", [("USD", "1.1")]), ("GBP", [("USD", "1.3")])] : MerchantMap)
      [("GBP", [("USD", "1.3")]), ("EUR", [("USD", "1.1")])]
    ∧ (mapKeys ([("EUR", [("USD", "1.1")]), ("GBP", [("USD", "1.3")])] : MerchantMap)).Nodup
    ∧ ∃ r₂, transformToBaseCurrency (strconvParseFloat plainDecimal) "USD"
          [("GBP", [("USD", "1.3")]), ("EUR", [("USD", "1.1")])] = .ok r₂
        ∧ r₂.Base = "USD" ∧ r₂.Rates.length = 2
        ∧ ∀ c, mapIndex r₂.Rates c
            = mapIndex [("EUR", float64.num "1.1"), ("GBP", float64.num "1.3")] c :=
  ⟨List.Perm.swap _ _ _, by decide,
    (transformToBaseCurrency_order (strconvParseFloat plainDecimal) "USD"
      [("EUR", [("USD", "1.1")]), ("GBP", [("USD", "1.3")])]
      [("GBP", [("USD", "1.3")]), ("EUR", [("USD", "1.1")])]
      (List.Perm.swap _ _ _) (by decide)).2.1
      ⟨"USD", [("EUR", float64.num "1.1"), ("GBP", float64.num "1.3")]⟩ rfl⟩

/-! ## The handler: results -/

theorem getExchangeRates_calls {F : Type} (w : World F) (apiURL : String) :
    (getExchangeRates w apiURL).2 = [Call.httpGet apiURL] := by
  unfold getExchangeRates
  split
  · rfl
  · split
    · rfl
    · split <;> rfl

/-- C4: `Handler` is all-or-nothing, in every world.  When it returns an error the result
string is empty and no object has been written; an upload was then attempted at most once,
and only when the configuration check, the fetch, the transform and the serialization had
all succeeded and the object store itself rejected the upload.  When it returns success,
exactly one upload was made, to bucket BUCKET_NAME and key KEY_NAME with the JSON encoding of
the transform output as body, the object store accepted it, and the returned string is
"Successfully uploaded data to <bucket>/<key>".  When session creation panics nothing has
been uploaded. -/
theorem Handler_all_or_nothing {F : Type} (w : World F) :
    (∀ s err, (Handler w).outcome = .returned s (some err) →
        s = "" ∧ objectWrites (Handler w).calls = []
        ∧ (uploadAttempts (Handler w).calls = []
          ∨ ∃ merchantRates data dataBytes,
              ¬ (w.Getenv "API_URL" = "" ∨ w.Getenv "BUCKET_NAME" = "" ∨ w.Getenv "KEY_NAME" = ""
                  ∨ w.Getenv "REGION" = "")
              ∧ (getExchangeRates w (w.Getenv "API_URL")).1 = .ok merchantRates
              ∧ transformToBaseCurrency w.ParseFloat (w.Getenv "BASE_CURRENCY") merchantRates
                  = .ok data
              ∧ w.jsonMarshal data = .ok dataBytes
              ∧ w.upload (w.Getenv "BUCKET_NAME") (w.Getenv "KEY_NAME") dataBytes = .error err
              ∧ uploadAttempts (Handler w).calls
                  = [(w.Getenv "BUCKET_NAME", w.Getenv "KEY_NAME", dataBytes)]))
    ∧ (∀ s, (Handler w).outcome = .returned s none →
        ∃ merchantRates data dataBytes,
          ¬ (w.Getenv "API_URL" = "" ∨ w.Getenv "BUCKET_NAME" = "" ∨ w.Getenv "KEY_NAME" = ""
              ∨ w.Getenv "REGION" = "")
          ∧ (getExchangeRates w (w.Getenv "API_URL")).1 = .ok merchantRates
          ∧ transformToBaseCurrency w.ParseFloat (w.Getenv "BASE_CURRENCY") merchantRates
              = .ok data
          ∧ w.jsonMarshal data = .ok dataBytes
          ∧ w.upload (w.Getenv "BUCKET_NAME") (w.Getenv "KEY_NAME") dataBytes = .ok ()
          ∧ uploadAttempts (Handler w).calls
              = [(w.Getenv "BUCKET_NAME", w.Getenv "KEY_NAME", dataBytes)]
          ∧ objectWrites (Handler w).calls
              = [(w.Getenv "BUCKET_NAME", w.Getenv "KEY_NAME", dataBytes)]
          ∧ s = "Successfully uploaded data to " ++ w.Getenv "BUCKET_NAME" ++ "/"
                  ++ w.Getenv "KEY_NAME")
    ∧ (∀ err, (Handler w).outcome = .panicked err → uploadAttempts (Handler w).calls = []) := by
  have hcalls := getExchangeRates_calls w (w.Getenv "API_URL")
  unfold Handler
  simp only []
  split
  · simp [objectWrites, uploadAttempts]
  · rename_i hcfg
    split
    · rename_i err calls hfetch
      rw [hfetch] at hcalls
      simp only at hcalls
      subst hcalls
      simp [objectWrites, uploadAttempts]
    · rename_i merchantRates calls hfetch
      rw [hfetch] at hcalls
      simp only at hcalls
      subst hcalls
      split
      · simp [objectWrites, uploadAttempts]
      · rename_i data htrans
        split
        · simp [objectWrites, uploadAttempts]
        · rename_i dataBytes hmarshal
          split
          · simp [objectWrites, uploadAttempts]
          · split
            · rename_i err hup
              simp [objectWrites, uploadAttempts, hfetch, htrans, hmarshal, hup, hcfg]
            · rename_i u hup
              simp [objectWrites, uploadAttempts, hfetch, htrans, hmarshal, hup, hcfg]

/-- C5: when at least one of API_URL, BUCKET_NAME, KEY_NAME and REGION is unset or empty,
`Handler` returns an empty string with the configuration error, having made no external
call, neither the HTTP GET nor an upload, whatever the other variables, BASE_CURRENCY and the
rest of the world are. -/
theorem Handler_config_missing {F : Type} (w : World F)
    (h : w.Getenv "API_URL" = "" ∨ w.Getenv "BUCKET_NAME" = "" ∨ w.Getenv "KEY_NAME" = ""
      ∨ w.Getenv "REGION" = "") :
    Handler w = ⟨.returned ""
        (some "API_URL, BUCKET_NAME, or KEY_NAME environment variable is not set"), []⟩ := by
  unfold Handler
  simp only []
  rw [if_pos h]
  rfl

/-- Witness for C5: REGION is unset, the other variables are set and the endpoint and the
object store would both answer. -/
theorem Handler_config_missing_witness :
    (demoEnv "" "USD" "API_URL" = "" ∨ demoEnv "" "USD" "BUCKET_NAME" = ""
      ∨ demoEnv "" "USD" "KEY_NAME" = "" ∨ demoEnv "" "USD" "REGION" = "")
    ∧ Handler (demoWorld (demoEnv "" "USD") (.ok ⟨200, demoBody⟩) (.ok demoMerchant) (.ok ()))
      = ⟨.returned ""
          (some "API_URL, BUCKET_NAME, or KEY_NAME environment variable is not set"), []⟩ :=
  ⟨Or.inr (Or.inr (Or.inr rfl)),
    Handler_config_missing
      (demoWorld (demoEnv "" "USD") (.ok ⟨200, demoBody⟩) (.ok demoMerchant) (.ok ()))
      (Or.inr (Or.inr (Or.inr rfl)))⟩

/-- C6: for a response whose status code is not 200, `getExchangeRates` returns no map and
the error "received non-200 response code: <code>", whatever the body is and whatever the
decoder would make of it; with the four required variables set, `Handler` returns that
error, and the GET is the only external call it made. -/
theorem getExchangeRates_non200 {F : Type} (w : World F) (apiURL : String)
    (response : HttpResponse) (hget : w.httpGet apiURL = .ok response)
    (hcode : response.StatusCode ≠ 200) :
    getExchangeRates w apiURL
        = (.error ("received non-200 response code: " ++ toString response.StatusCode),
            [Call.httpGet apiURL])
      ∧ (w.Getenv "API_URL" = apiURL →
          ¬ (w.Getenv "API_URL" = "" ∨ w.Getenv "BUCKET_NAME" = "" ∨ w.Getenv "KEY_NAME" = ""
              ∨ w.Getenv "REGION" = "") →
          Handler w = ⟨.returned ""
              (some ("received non-200 response code: " ++ toString response.StatusCode)),
            [Call.httpGet apiURL]⟩) := by
  have hfetch : getExchangeRates w apiURL
      = (.error ("received non-200 response code: " ++ toString response.StatusCode),
          [Call.httpGet apiURL]) := by
    unfold getExchangeRates
    simp only [hget]
    rw [if_pos hcode]
  refine ⟨hfetch, ?_⟩
  intro hurl hcfg
  unfold Handler
  simp only []
  rw [if_neg hcfg, hurl, hfetch]

/-- Witness for C6: status 503 with a body that is a well-formed rates document yields the
error naming 503, and no upload. -/
theorem getExchangeRates_non200_witness :
    getExchangeRates
        (demoWorld (demoEnv "eu-west-1" "USD") (.ok ⟨503, demoBody⟩) (.ok demoMerchant) (.ok ()))
        "https://rates.example/merchant"
      = (.error "received non-200 response code: 503",
          [Call.httpGet "https://rates.example/merchant"])
    ∧ Handler
        (demoWorld (demoEnv "eu-west-1" "USD") (.ok ⟨503, demoBody⟩) (.ok demoMerchant) (.ok ()))
      = ⟨.returned "" (some "received non-200 response code: 503"),
          [Call.httpGet "https://rates.example/merchant"]⟩ :=
  have h := getExchangeRates_non200
    (demoWorld (demoEnv "eu-west-1" "USD") (.ok ⟨503, demoBody⟩) (.ok demoMerchant) (.ok ()))
    "https://rates.example/merchant" ⟨503, demoBody⟩ rfl (by decide)
  ⟨h.1, h.2 rfl (by decide)⟩

/-- Witness for C4: with every variable set, status 200 and an object store that accepts the
upload, `Handler` succeeds after exactly one upload of the encoded rates. -/
theorem Handler_all_or_nothing_witness :
    Handler (demoWorld (demoEnv "eu-west-1" "USD") (.ok ⟨200, demoBody⟩) (.ok demoMerchant)
        (.ok ()))
      = ⟨.returned "Successfully uploaded data to rates-bucket/rates.json" none,
          [Call.httpGet "https://rates.example/merchant",
            Call.upload "rates-bucket" "rates.json"
              "\x7b\"base\":\"USD\",\"rates\":\x7b\"EUR\":1.1,\"GBP\":1.3\x7d\x7d" true]⟩
    ∧ Handler (demoWorld (demoEnv "eu-west-1" "USD") (.ok ⟨200, demoBody⟩) (.ok demoMerchant)
        (.error "AccessDenied: Access Denied"))
      = ⟨.returned "" (some "AccessDenied: Access Denied"),
          [Call.httpGet "https://rates.example/merchant",
            Call.upload "rates-bucket" "rates.json"
              "\x7b\"base\":\"USD\",\"rates\":\x7b\"EUR\":1.1,\"GBP\":1.3\x7d\x7d" false]⟩
    ∧ objectWrites (Handler (demoWorld (demoEnv "eu-west-1" "USD") (.ok ⟨200, demoBody⟩)
        (.ok demoMerchant) (.error "AccessDenied: Access Denied"))).calls = [] :=
  ⟨rfl, rfl,
    ((Handler_all_or_nothing (demoWorld (demoEnv "eu-west-1" "USD") (.ok ⟨200, demoBody⟩)
      (.ok demoMerchant) (.error "AccessDenied: Access Denied"))).1 ""
      "AccessDenied: Access Denied" rfl).2.1⟩

/-- C8, as stated, fails: with the empty base currency the transform succeeds on the empty
map, and on a map whose reference mappings have an entry keyed by the empty string; with
BASE_CURRENCY unset, the other variables set and an endpoint that returns no merchant rates,
`Handler` succeeds and uploads a response with an empty base and no rates. -/
theorem emptyBase_not_always_missing :
    transformToBaseCurrency (strconvParseFloat plainDecimal) "" []
      = .ok ⟨"", []⟩
    ∧ transformToBaseCurrency (strconvParseFloat plainDecimal) "" [("EUR", [("", "1.1")])]
      = .ok ⟨"", [("EUR", float64.num "1.1")]⟩
    ∧ Handler (demoWorld (demoEnv "eu-west-1" "")
        (.ok ⟨200, "\x7b\"merchant\":\x7b\x7d\x7d"⟩) (.ok []) (.ok ()))
      = ⟨.returned "Successfully uploaded data to rates-bucket/rates.json" none,
          [Call.httpGet "https://rates.example/merchant",
            Call.upload "rates-bucket" "rates.json" "\x7b\"base\":\"\",\"rates\":\x7b\x7d\x7d"
              true]⟩ :=
  ⟨rfl, rfl, rfl⟩

/-- C8, amended: when BASE_CURRENCY is unset or empty and API_URL, BUCKET_NAME, KEY_NAME and
REGION are all set, `Handler` passes the configuration check and hands the empty base
currency to the transform.  For every fetched map that has at least one currency and in
which no reference mapping has an entry keyed by the empty string, the transform fails with
the missing-base-rate error for the first currency visited, and `Handler` returns that error
with an empty string, the GET being its only external call. -/
theorem Handler_empty_base {F : Type} (w : World F) (response : HttpResponse)
    (c : String) (rm : List (String × String)) (rest : MerchantMap)
    (hcfg : ¬ (w.Getenv "API_URL" = "" ∨ w.Getenv "BUCKET_NAME" = "" ∨ w.Getenv "KEY_NAME" = ""
      ∨ w.Getenv "REGION" = ""))
    (hbase : w.Getenv "BASE_CURRENCY" = "")
    (hget : w.httpGet (w.Getenv "API_URL") = .ok response)
    (hcode : response.StatusCode = 200)
    (hdec : w.jsonDecode response.Body = .ok ((c, rm) :: rest))
    (hkeys : ∀ x ∈ (c, rm) :: rest, mapIndex x.2 "" = none) :
    transformToBaseCurrency w.ParseFloat "" ((c, rm) :: rest)
        = .error (missingBaseRateError "" c)
      ∧ missingBaseRateError "" c
        = "failed to find  rate for currency " ++ c ++ " in merchant rates"
      ∧ Handler w = ⟨.returned "" (some (missingBaseRateError "" c)),
          [Call.httpGet (w.Getenv "API_URL")]⟩ := by
  have hnone : mapIndex rm "" = none := hkeys (c, rm) (List.mem_cons_self _ _)
  have htrans : transformToBaseCurrency w.ParseFloat "" ((c, rm) :: rest)
      = .error (missingBaseRateError "" c) := by
    simp [transformToBaseCurrency, transformLoop, hnone]
  have hfetch : getExchangeRates w (w.Getenv "API_URL")
      = (.ok ((c, rm) :: rest), [Call.httpGet (w.Getenv "API_URL")]) := by
    unfold getExchangeRates
    simp only [hget]
    rw [if_neg (by simp [hcode])]
    simp only [hdec]
  refine ⟨htrans, ?_, ?_⟩
  · simp [missingBaseRateError]
  · unfold Handler
    simp only []
    rw [if_neg hcfg, hfetch, hbase]
    simp only [htrans]

/-- Witness for C8, amended: BASE_CURRENCY is unset and the fetched map is
GBP ↦ (USD ↦ "1.3"), EUR ↦ (USD ↦ "1.1"). -/
theorem Handler_empty_base_witness :
    demoEnv "eu-west-1" "" "BASE_CURRENCY" = ""
    ∧ transformToBaseCurrency (strconvParseFloat plainDecimal) ""
        [("GBP", [("USD", "1.3")]), ("EUR", [("USD", "1.1")])]
      = .error (missingBaseRateError "" "GBP")
    ∧ missingBaseRateError "" "GBP" = "failed to find  rate for currency " ++ "GBP"
        ++ " in merchant rates"
    ∧ Handler (demoWorld (demoEnv "eu-west-1" "") (.ok ⟨200, demoBody⟩) (.ok demoMerchant)
        (.ok ()))
      = ⟨.returned "" (some (missingBaseRateError "" "GBP")),
          [Call.httpGet "https://rates.example/merchant"]⟩ :=
  ⟨rfl, Handler_empty_base
    (demoWorld (demoEnv "eu-west-1" "") (.ok ⟨200, demoBody⟩) (.ok demoMerchant) (.ok ()))
    ⟨200, demoBody⟩ "GBP" [("USD", "1.3")] [("EUR", [("USD", "1.1")])]
    (by decide) rfl rfl rfl rfl (by
      intro x hx
      simp only [List.mem_cons, List.mem_nil_iff, or_false] at hx
      rcases hx with rfl | rfl <;> rfl)⟩

/-! ## Serialization -/

theorem mem_of_mem_mapAssign {V : Type} (m : List (String × V)) (k : String) (v : V)
    (x : String × V) (h : x ∈ mapAssign m k v) : x ∈ m ∨ x = (k, v) := by
  induction m with
  | nil =>
    simp only [mapAssign, List.mem_singleton] at h
    exact Or.inr h
  | cons e rest ih =>
    obtain ⟨k', v'⟩ := e
    by_cases hk : k' = k
    · simp only [mapAssign, hk, if_true, List.mem_cons] at h
      rcases h with h | h
      · exact Or.inr h
      · exact Or.inl (List.mem_cons_of_mem _ h)
    · simp only [mapAssign, hk, if_false, List.mem_cons] at h
      rcases h with h | h
      · exact Or.inl (h ▸ List.mem_cons_self _ _)
      · rcases ih h with h' | h'
        · exact Or.inl (List.mem_cons_of_mem _ h')
        · exact Or.inr h'

/-- Every rate in the table the loop ends with was in the table at the start or is the parse
of some currency's rate string for the base currency. -/
theorem transformLoop_values {F : Type} (ParseFloat : String → Except String F)
    (b : String) (m : MerchantMap) (acc rates : List (String × F))
    (h : transformLoop ParseFloat b m acc = .ok rates) (x : String × F) (hx : x ∈ rates) :
    x ∈ acc ∨ ∃ rm s, (x.1, rm) ∈ m ∧ mapIndex rm b = some s ∧ ParseFloat s = .ok x.2 := by
  induction m generalizing acc with
  | nil =>
    simp only [transformLoop, Except.ok.injEq] at h
    exact Or.inl (h ▸ hx)
  | cons e rest ih =>
    obtain ⟨c, rm⟩ := e
    cases hs : mapIndex rm b with
    | none => simp [transformLoop, hs] at h
    | some s =>
      cases hv : ParseFloat s with
      | error err => simp [transformLoop, hs, hv] at h
      | ok v =>
        simp only [transformLoop, hs, hv] at h
        rcases ih _ h with hacc | ⟨rm', s', hmem, hs', hv'⟩
        · rcases mem_of_mem_mapAssign acc c v x hacc with h' | h'
          · exact Or.inl h'
          · subst h'
            exact Or.inr ⟨rm, s, List.mem_cons_self _ _, hs, hv⟩
        · exact Or.inr ⟨rm', s', List.mem_cons_of_mem _ hmem, hs', hv'⟩

/-- The encoder succeeds exactly when every rate is finite. -/
theorem jsonMarshal_ok_iff {R : Type} (encode : RatesResponse (float64 R) → String)
    (data : RatesResponse (float64 R)) :
    jsonMarshal encode data = .ok (encode data) ↔ ∀ x ∈ data.Rates, x.2.supported = true := by
  have hmem : ∀ x, x ∈ sortedEntries data.Rates ↔ x ∈ data.Rates := fun x =>
    (List.perm_insertionSort _ data.Rates).mem_iff
  unfold jsonMarshal
  constructor
  · intro h x hx
    cases hf : (sortedEntries data.Rates).find? (fun kv => !kv.2.supported) with
    | some kv => simp [hf] at h
    | none =>
      have := List.find?_eq_none.mp hf x ((hmem x).mpr hx)
      simpa using this
  · intro h
    have hf : (sortedEntries data.Rates).find? (fun kv => !kv.2.supported) = none := by
      apply List.find?_eq_none.mpr
      intro x hx
      simp [h x ((hmem x).mp hx)]
    simp [hf]

/-- C9, as stated, fails: the float parser accepts the rate string "NaN", so the transform of
EUR ↦ (USD ↦ "NaN") succeeds with the rate NaN, which the JSON encoder rejects; `Handler`
then returns the serialization error and uploads nothing. -/
theorem serialization_can_fail :
    transformToBaseCurrency (strconvParseFloat plainDecimal) "USD" [("EUR", [("USD", "NaN")])]
      = .ok ⟨"USD", [("EUR", float64.NaN)]⟩
    ∧ jsonMarshal demoEncode ⟨"USD", [("EUR", float64.NaN)]⟩
      = .error "json: unsupported value: NaN"
    ∧ Handler (demoWorld (demoEnv "eu-west-1" "USD")
        (.ok ⟨200, "\x7b\"merchant\":\x7b\"EUR\":\x7b\"USD\":\"NaN\"\x7d\x7d\x7d"⟩)
        (.ok [("EUR", [("USD", "NaN")])]) (.ok ()))
      = ⟨.returned "" (some "json: unsupported value: NaN"),
          [Call.httpGet "https://rates.example/merchant"]⟩ :=
  ⟨rfl, rfl, rfl⟩

/-- A value found under a key is an entry of the map. -/
theorem mem_of_mapIndex {V : Type} (m : List (String × V)) (k : String) (v : V)
    (h : mapIndex m k = some v) : (k, v) ∈ m := by
  induction m with
  | nil => simp [mapIndex] at h
  | cons e rest ih =>
    obtain ⟨k', v'⟩ := e
    by_cases hk : k' = k
    · simp only [mapIndex, hk, if_true, Option.some.injEq] at h
      rw [hk, h]
      exact List.mem_cons_self _ _
    · simp only [mapIndex, hk, if_false] at h
      exact List.mem_cons_of_mem _ (ih h)

/-- A special value of the float parser is one the JSON encoder rejects. -/
theorem special_unsupported {R : Type} (s : String) (v : float64 R)
    (h : special s = some v) : v.supported = false := by
  unfold special at h
  simp only [] at h
  split_ifs at h <;> (cases h; rfl)

/-- A parsed rate is finite exactly when its string is not a special spelling. -/
theorem strconvParseFloat_supported_iff {R : Type} (atof : String → Except String R)
    (s : String) (v : float64 R) (h : strconvParseFloat atof s = .ok v) :
    v.supported = true ↔ special (R := R) s = none := by
  unfold strconvParseFloat at h
  cases hsp : special (R := R) s with
  | some x =>
    simp only [hsp, Except.ok.injEq] at h
    subst h
    simp [special_unsupported s x hsp]
  | none =>
    simp only [hsp] at h
    cases hat : atof s with
    | error err => simp [hat] at h
    | ok y =>
      simp only [hat, Except.ok.injEq] at h
      subst h
      simp [float64.supported]

/-- When some rate is NaN or infinite the encoder fails with an unsupported-value error. -/
theorem jsonMarshal_error_of_unsupported {R : Type}
    (encode : RatesResponse (float64 R) → String) (data : RatesResponse (float64 R))
    (h : ∃ x ∈ data.Rates, x.2.supported = false) :
    ∃ t, (t = "NaN" ∨ t = "+Inf" ∨ t = "-Inf")
      ∧ jsonMarshal encode data = .error ("json: unsupported value: " ++ t) := by
  have hmem : ∀ x, x ∈ sortedEntries data.Rates ↔ x ∈ data.Rates := fun x =>
    (List.perm_insertionSort _ data.Rates).mem_iff
  unfold jsonMarshal
  cases hf : (sortedEntries data.Rates).find? (fun kv => !kv.2.supported) with
  | none =>
    obtain ⟨x, hx, hfalse⟩ := h
    have := List.find?_eq_none.mp hf x ((hmem x).mpr hx)
    simp [hfalse] at this
  | some kv =>
    have hkv := List.find?_some hf
    obtain ⟨k, v⟩ := kv
    cases v with
    | NaN => exact ⟨"NaN", Or.inl rfl, rfl⟩
    | Inf negative =>
      cases negative with
      | false => exact ⟨"+Inf", Or.inr (Or.inl rfl), rfl⟩
      | true => exact ⟨"-Inf", Or.inr (Or.inr rfl), rfl⟩
    | num x => simp [float64.supported] at hkv

/-- What `Handler` returns once the configuration check, the fetch and the transform have
succeeded and the encoder has failed. -/
theorem Handler_of_marshal_error {F : Type} (w : World F) (m : MerchantMap)
    (r : RatesResponse F) (err : String)
    (hcfg : ¬ (w.Getenv "API_URL" = "" ∨ w.Getenv "BUCKET_NAME" = "" ∨ w.Getenv "KEY_NAME" = ""
      ∨ w.Getenv "REGION" = ""))
    (hfetch : (getExchangeRates w (w.Getenv "API_URL")).1 = .ok m)
    (hok : transformToBaseCurrency w.ParseFloat (w.Getenv "BASE_CURRENCY") m = .ok r)
    (hmarshal : w.jsonMarshal r = .error err) :
    Handler w = ⟨.returned "" (some err), [Call.httpGet (w.Getenv "API_URL")]⟩ := by
  have hpair : getExchangeRates w (w.Getenv "API_URL")
      = (.ok m, [Call.httpGet (w.Getenv "API_URL")]) :=
    Prod.ext hfetch (getExchangeRates_calls w (w.Getenv "API_URL"))
  unfold Handler
  simp only []
  rw [if_neg hcfg, hpair]
  simp only [hok, hmarshal]

/-- C9, amended: a serialization error can occur after a successful transform, and it occurs
exactly for the rate strings that spell NaN or an infinity.  In every world whose float
parser recognises the special values as `strconv.ParseFloat` does and whose encoder is
`json.Marshal`, with the four required variables set, for every fetched map `m` (its
currencies pairwise distinct) on which the transform succeeds with response `r`:
`json.Marshal r` fails if and only if the rate string for the base currency of some
currency of `m` is a special spelling ("NaN", or "Inf" or "Infinity" with an optional sign,
in any letter case).  When it fails, the error is "json: unsupported value: " followed by
NaN, +Inf or -Inf, and `Handler` returns it with an empty string, the GET being its only
external call, so nothing is uploaded.  When no rate string is a special spelling,
`json.Marshal r` succeeds with the JSON text of `r`. -/
theorem jsonMarshal_after_transform {R : Type} (w : World (float64 R))
    (atof : String → Except String R) (encode : RatesResponse (float64 R) → String)
    (m : MerchantMap) (r : RatesResponse (float64 R))
    (hP : w.ParseFloat = strconvParseFloat atof) (hM : w.jsonMarshal = jsonMarshal encode)
    (hcfg : ¬ (w.Getenv "API_URL" = "" ∨ w.Getenv "BUCKET_NAME" = "" ∨ w.Getenv "KEY_NAME" = ""
      ∨ w.Getenv "REGION" = ""))
    (hfetch : (getExchangeRates w (w.Getenv "API_URL")).1 = .ok m)
    (hnd : (mapKeys m).Nodup)
    (hok : transformToBaseCurrency w.ParseFloat (w.Getenv "BASE_CURRENCY") m = .ok r) :
    ((∃ err, w.jsonMarshal r = .error err)
        ↔ ∃ c rm s, (c, rm) ∈ m ∧ mapIndex rm (w.Getenv "BASE_CURRENCY") = some s
            ∧ special (R := R) s ≠ none)
      ∧ ((∃ c rm s, (c, rm) ∈ m ∧ mapIndex rm (w.Getenv "BASE_CURRENCY") = some s
            ∧ special (R := R) s ≠ none) →
          ∃ t, (t = "NaN" ∨ t = "+Inf" ∨ t = "-Inf")
            ∧ w.jsonMarshal r = .error ("json: unsupported value: " ++ t)
            ∧ Handler w = ⟨.returned "" (some ("json: unsupported value: " ++ t)),
                [Call.httpGet (w.Getenv "API_URL")]⟩
            ∧ uploadAttempts (Handler w).calls = [])
      ∧ ((∀ c rm s, (c, rm) ∈ m → mapIndex rm (w.Getenv "BASE_CURRENCY") = some s →
            special (R := R) s = none) →
          w.jsonMarshal r = .ok (encode r)) := by
  have hok' := hok
  rw [hP] at hok'
  obtain ⟨hloop, _⟩ := (transformToBaseCurrency_eq_ok _ _ m r).mp hok'
  -- every currency of the map has a rate in the response, parsed from its rate string
  have hgood : ∀ c rm, (c, rm) ∈ m →
      ∃ s v, mapIndex rm (w.Getenv "BASE_CURRENCY") = some s
        ∧ strconvParseFloat atof s = .ok v := by
    intro c rm hmem
    by_contra hbad
    obtain ⟨err, herr⟩ := transformLoop_error_of_fault (strconvParseFloat atof)
      (w.Getenv "BASE_CURRENCY") m [] ⟨(c, rm), hmem, hbad⟩
    rw [hloop] at herr
    simp at herr
  obtain ⟨r', hr', _, _, _, _, hvals⟩ :=
    transformToBaseCurrency_ok_spec (strconvParseFloat atof) (w.Getenv "BASE_CURRENCY") m
      hnd hgood
  have hrr : r' = r := by
    rw [hok'] at hr'
    exact (Except.ok.inj hr').symm
  subst hrr
  -- a special spelling in the map gives an unsupported rate in the response
  have hfwd : (∃ c rm s, (c, rm) ∈ m ∧ mapIndex rm (w.Getenv "BASE_CURRENCY") = some s
      ∧ special (R := R) s ≠ none) → ∃ x ∈ r'.Rates, x.2.supported = false := by
    rintro ⟨c, rm, s, hmem, hs, hsp⟩
    obtain ⟨s', v, hs', hv, hidx⟩ := hvals c rm hmem
    have hss : s' = s := by
      have h := hs'.symm.trans hs
      simpa using h
    subst hss
    refine ⟨(c, v), mem_of_mapIndex _ c v hidx, ?_⟩
    cases hsup : v.supported with
    | false => rfl
    | true => exact absurd ((strconvParseFloat_supported_iff atof s' v hv).mp hsup) hsp
  -- an unsupported rate in the response comes from a special spelling in the map
  have hbwd : (∃ x ∈ r'.Rates, x.2.supported = false) →
      ∃ c rm s, (c, rm) ∈ m ∧ mapIndex rm (w.Getenv "BASE_CURRENCY") = some s
        ∧ special (R := R) s ≠ none := by
    rintro ⟨x, hx, hfalse⟩
    rcases transformLoop_values _ _ m [] r'.Rates hloop x hx with hnil | ⟨rm, s, hmem, hs, hv⟩
    · simp at hnil
    · refine ⟨x.1, rm, s, hmem, hs, ?_⟩
      intro hnone
      have := (strconvParseFloat_supported_iff atof s x.2 hv).mpr hnone
      simp [hfalse] at this
  have hiff := jsonMarshal_ok_iff encode r'
  refine ⟨?_, ?_, ?_⟩
  · rw [hM]
    constructor
    · rintro ⟨err, herr⟩
      apply hbwd
      by_contra hall
      have hsup : ∀ x ∈ r'.Rates, x.2.supported = true := by
        intro x hx
        by_contra hx'
        exact hall ⟨x, hx, by simpa using hx'⟩
      rw [hiff.mpr hsup] at herr
      simp at herr
    · intro h
      obtain ⟨t, _, ht⟩ := jsonMarshal_error_of_unsupported encode r' (hfwd h)
      exact ⟨_, ht⟩
  · intro h
    obtain ⟨t, htext, ht⟩ := jsonMarshal_error_of_unsupported encode r' (hfwd h)
    have hmarshal : w.jsonMarshal r' = .error ("json: unsupported value: " ++ t) := by
      rw [hM]
      exact ht
    have hH := Handler_of_marshal_error w m r' _ hcfg hfetch hok hmarshal
    refine ⟨t, htext, hmarshal, hH, ?_⟩
    rw [hH]
    rfl
  · intro hnone
    rw [hM]
    apply hiff.mpr
    intro x hx
    by_contra hx'
    obtain ⟨c, rm, s, hmem, hs, hsp⟩ := hbwd ⟨x, hx, by simpa using hx'⟩
    exact hsp (hnone c rm s hmem hs)

/-- Witness for C9, amended: base "USD" and the fetched map EUR ↦ (USD ↦ "1.1"),
GBP ↦ (USD ↦ "-Infinity"): the transform succeeds, the encoder rejects the rate of GBP, and
`Handler` returns the error without an upload. -/
theorem jsonMarshal_after_transform_witness :
    transformToBaseCurrency (strconvParseFloat plainDecimal) "USD"
        [("EUR", [("USD", "1.1")]), ("GBP", [("USD", "-Infinity")])]
      = .ok ⟨"USD", [("EUR", float64.num "1.1"), ("GBP", float64.Inf true)]⟩
    ∧ (mapKeys ([("EUR", [("USD", "1.1")]), ("GBP", [("USD", "-Infinity")])] : MerchantMap)).Nodup
    ∧ special (R := String) "-Infinity" ≠ none
    ∧ Handler (demoWorld (demoEnv "eu-west-1" "USD") (.ok ⟨200, "rates"⟩)
        (.ok [("EUR", [("USD", "1.1")]), ("GBP", [("USD", "-Infinity")])]) (.ok ()))
      = ⟨.returned "" (some "json: unsupported value: -Inf"),
          [Call.httpGet "https://rates.example/merchant"]⟩
    ∧ ∃ t, (t = "NaN" ∨ t = "+Inf" ∨ t = "-Inf")
        ∧ (demoWorld (demoEnv "eu-west-1" "USD") (.ok ⟨200, "rates"⟩)
            (.ok [("EUR", [("USD", "1.1")]), ("GBP", [("USD", "-Infinity")])]) (.ok ())).jsonMarshal
            ⟨"USD", [("EUR", float64.num "1.1"), ("GBP", float64.Inf true)]⟩
          = .error ("json: unsupported value: " ++ t)
        ∧ Handler (demoWorld (demoEnv "eu-west-1" "USD") (.ok ⟨200, "rates"⟩)
            (.ok [("EUR", [("USD", "1.1")]), ("GBP", [("USD", "-Infinity")])]) (.ok ()))
          = ⟨.returned "" (some ("json: unsupported value: " ++ t)),
              [Call.httpGet (demoEnv "eu-west-1" "USD" "API_URL")]⟩
        ∧ uploadAttempts (Handler (demoWorld (demoEnv "eu-west-1" "USD") (.ok ⟨200, "rates"⟩)
            (.ok [("EUR", [("USD", "1.1")]), ("GBP", [("USD", "-Infinity")])])
            (.ok ()))).calls = [] :=
  ⟨rfl, by decide, by decide, rfl,
    (jsonMarshal_after_transform
      (demoWorld (demoEnv "eu-west-1" "USD") (.ok ⟨200, "rates"⟩)
        (.ok [("EUR", [("USD", "1.1")]), ("GBP", [("USD", "-Infinity")])]) (.ok ()))
      plainDecimal demoEncode
      [("EUR", [("USD", "1.1")]), ("GBP", [("USD", "-Infinity")])]
      ⟨"USD", [("EUR", float64.num "1.1"), ("GBP", float64.Inf true)]⟩
      rfl rfl (by decide) rfl (by decide) rfl).2.1
      ⟨"GBP", [("USD", "-Infinity")], "-Infinity", by simp, rfl, by decide⟩⟩

end ExchangeRates
